import Mathlib

/-!
Shallow embedding of `xctest_checker/compare.py`: a line verifier that
checks the lines of an actual-output file against regular-expression
patterns extracted from an expectations file (the lines that start with a
caller-supplied check prefix, with the prefix stripped).

Python strings are modelled as lists of characters (`PyStr`), file contents
as the full character sequence of the file, and Python 2 file iteration
(`for line in f`) as `pyLines`, which splits after every newline character
and keeps the terminators.

The Python `re` module is external library code; `Regex`, `parseRegex` and
`rmatch` model the core of its documented semantics for the pattern subset
actually expressible here (literals, `.`, escapes, character classes,
grouping, alternation and the repetition operators `*`, `+`, `?`, each with
an optional non-greedy `?` suffix), with `re.match`'s anchored-at-position-
zero, match-a-prefix behaviour given by `rmatch`.  Patterns outside the
subset are reported as a compile error (`Option.none`), mirroring `re.error`.
-/

namespace XCTestChecker

/-- Python strings modelled as lists of characters. -/
abbrev PyStr := List Char

/-- Convenience coercion from Lean string literals to the model. -/
def str (s : String) : PyStr := s.data

/-- Model of Python 2 file-object line iteration: split after every `'\n'`,
keeping the newline on each line; a final unterminated chunk is yielded as a
last line without a terminator. -/
def pyLines : PyStr → List PyStr
  | [] => []
  | c :: cs =>
    if c = '\n' then ['\n'] :: pyLines cs
    else
      match pyLines cs with
      | [] => [[c]]
      | l :: ls => (c :: l) :: ls

/-- `_actual_lines`: yields each line in the file (content `s`). -/
def _actual_lines (s : PyStr) : List PyStr := pyLines s

/-- The filtering loop of `_expected_lines`, over an already-split line list:
`if line.startswith(check_prefix): yield line[len(check_prefix):]`. -/
def expectedOfLines : List PyStr → PyStr → List PyStr
  | [], _ => []
  | l :: ls, p =>
    if List.isPrefixOf p l then l.drop p.length :: expectedOfLines ls p
    else expectedOfLines ls p

/-- `_expected_lines`: yields, for each line of the file (content `s`) that
begins with ` check_prefix`, the remainder of the line after the prefix. -/
def _expected_lines (s : PyStr) ( check_prefix : PyStr) : List PyStr :=
  expectedOfLines (pyLines s) check_prefix

/-! ### A model of the Python `re` core: regular expressions and matching -/

/-- One item of a character class: a single character or a range. -/
inductive CItem where
  | single (c : Char)
  | range (lo hi : Char)
deriving DecidableEq, Repr

/-- Regular expressions.  A single-character atom is a (possibly negated)
character class; a literal character `c` is `.cls false [.single c]` and the
metacharacter `.` is `.cls true [.single newline]`. -/
inductive Regex where
  | nul
  | eps
  | cls (neg : Bool) (items : List CItem)
  | alt (r₁ r₂ : Regex)
  | cat (r₁ r₂ : Regex)
  | star (r : Regex)
deriving DecidableEq, Repr

/-- Does character `c` fall under a class item? -/
def citemMatch (c : Char) : CItem → Bool
  | .single d => decide (c = d)
  | .range lo hi => decide (lo ≤ c) && decide (c ≤ hi)

/-- Does character `c` match the class `items` with negation flag `neg`? -/
def clsMatch (neg : Bool) (items : List CItem) (c : Char) : Bool :=
  (items.any (citemMatch c)) != neg

/-- Does the regex accept the empty string? -/
def nullable : Regex → Bool
  | .nul => false
  | .eps => true
  | .cls _ _ => false
  | .alt r₁ r₂ => nullable r₁ || nullable r₂
  | .cat r₁ r₂ => nullable r₁ && nullable r₂
  | .star _ => true

/-- Brzozowski derivative of a regex by one character. -/
def deriv : Regex → Char → Regex
  | .nul, _ => .nul
  | .eps, _ => .nul
  | .cls neg items, c => if clsMatch neg items c then .eps else .nul
  | .alt r₁ r₂, c => .alt (deriv r₁ c) (deriv r₂ c)
  | .cat r₁ r₂, c =>
    if nullable r₁ then .alt (.cat (deriv r₁ c) r₂) (deriv r₂ c)
    else .cat (deriv r₁ c) r₂
  | .star r, c => .cat (deriv r c) (.star r)

/-- Whole-string match: the regex accepts exactly the string `s`. -/
def rmatchWhole (r : Regex) (s : PyStr) : Bool := nullable (s.foldl deriv r)

/-- Anchored match at position zero, accepting any prefix of `s`: the
truthiness of Python's `re.match(pattern, s)`. -/
def rmatch : Regex → PyStr → Bool
  | r, [] => nullable r
  | r, c :: cs => nullable r || rmatch (deriv r c) cs

/-! ### A parser for the core pattern syntax of Python `re` -/

/-- Characters that are not plain literals in a pattern. -/
def specialChar (c : Char) : Bool :=
  c = '(' || c = ')' || c = '[' || c = ']' || c = '{' || c = '}' ||
  c = '*' || c = '+' || c = '?' || c = '^' || c = '$' || c = '|' ||
  c = '\\' || c = '.'

/-- Class items of `\d`. -/
def digitItems : List CItem := [.range '0' '9']

/-- Class items of `\w`. -/
def wordItems : List CItem :=
  [.range 'a' 'z', .range 'A' 'Z', .range '0' '9', .single '_']

/-- Class items of `\s`. -/
def spaceItems : List CItem :=
  [.single ' ', .single '\t', .single '\n', .single '\r',
   .single '\x0b', .single '\x0c']

/-- Meaning of an escape sequence `\c` as a one-character atom; `none` for
escapes outside the modelled subset (which Python rejects or which carry
non-character meaning, e.g. `\b`). -/
def parseEscAtom (c : Char) : Option Regex :=
  if c = 'n' then some (.cls false [.single '\n'])
  else if c = 't' then some (.cls false [.single '\t'])
  else if c = 'r' then some (.cls false [.single '\r'])
  else if c = 'f' then some (.cls false [.single '\x0c'])
  else if c = 'v' then some (.cls false [.single '\x0b'])
  else if c = 'd' then some (.cls false digitItems)
  else if c = 'D' then some (.cls true digitItems)
  else if c = 'w' then some (.cls false wordItems)
  else if c = 'W' then some (.cls true wordItems)
  else if c = 's' then some (.cls false spaceItems)
  else if c = 'S' then some (.cls true spaceItems)
  else if c.isAlphanum then none
  else some (.cls false [.single c])

/-- Meaning of an escape sequence `\c` inside a character class. -/
def parseEscItems (c : Char) : Option (List CItem) :=
  if c = 'n' then some [.single '\n']
  else if c = 't' then some [.single '\t']
  else if c = 'r' then some [.single '\r']
  else if c = 'f' then some [.single '\x0c']
  else if c = 'v' then some [.single '\x0b']
  else if c = 'd' then some digitItems
  else if c = 'w' then some wordItems
  else if c = 's' then some spaceItems
  else if c.isAlphanum then none
  else some [.single c]

/-- Parse the body of a character class up to the closing `]`. -/
def parseClassBody : Nat → List Char → Option (List CItem × List Char)
  | 0, _ => none
  | _ + 1, [] => none
  | fuel + 1, c :: cs =>
    if c = ']' then some ([], cs)
    else if c = '\\' then
      match cs with
      | [] => none
      | e :: cs' =>
        match parseEscItems e with
        | none => none
        | some items =>
          match parseClassBody fuel cs' with
          | none => none
          | some (rest, rem) => some (items ++ rest, rem)
    else
      match cs with
      | '-' :: d :: cs' =>
        if d = ']' then
          match parseClassBody fuel cs with
          | none => none
          | some (rest, rem) => some (.single c :: rest, rem)
        else if d = '\\' then none
        else if c ≤ d then
          match parseClassBody fuel cs' with
          | none => none
          | some (rest, rem) => some (.range c d :: rest, rem)
        else none
      | _ =>
        match parseClassBody fuel cs with
        | none => none
        | some (rest, rem) => some (.single c :: rest, rem)

/-- Parse a character class after its opening `[`: optional negation `^`,
then (with a leading `]` taken literally) items up to the closing `]`. -/
def parseClass (fuel : Nat) (s : List Char) : Option (Regex × List Char) :=
  match s with
  | '^' :: ']' :: rest =>
    match parseClassBody fuel rest with
    | none => none
    | some (items, rem) => some (.cls true (.single ']' :: items), rem)
  | '^' :: rest =>
    match parseClassBody fuel rest with
    | none => none
    | some (items, rem) => some (.cls true items, rem)
  | ']' :: rest =>
    match parseClassBody fuel rest with
    | none => none
    | some (items, rem) => some (.cls false (.single ']' :: items), rem)
  | rest =>
    match parseClassBody fuel rest with
    | none => none
    | some (items, rem) => some (.cls false items, rem)

/-- Consume the optional non-greedy marker `?` after a repetition operator
(greediness never affects whether some match exists). -/
def dropLazyMark : List Char → List Char
  | '?' :: rest => rest
  | rest => rest

/-- Apply a repetition operator `*`, `+` or `?` following an atom, if
present. -/
def applyRepeatOp (r : Regex) : List Char → Regex × List Char
  | [] => (r, [])
  | c :: rest =>
    if c = '*' then (.star r, dropLazyMark rest)
    else if c = '+' then (.cat r (.star r), dropLazyMark rest)
    else if c = '?' then (.alt r .eps, dropLazyMark rest)
    else (r, c :: rest)

mutual

/-- Parse one atom: `.`, an escape, a class, a group, or a literal. -/
def parseAtom : Nat → List Char → Option (Regex × List Char)
  | 0, _ => none
  | _ + 1, [] => none
  | fuel + 1, c :: cs =>
    if c = '.' then some (.cls true [.single '\n'], cs)
    else if c = '\\' then
      match cs with
      | [] => none
      | e :: cs' =>
        match parseEscAtom e with
        | none => none
        | some r => some (r, cs')
    else if c = '[' then parseClass fuel cs
    else if c = '(' then
      match cs with
      | '?' :: _ => none
      | _ =>
        match parseAlt fuel cs with
        | some (r, ')' :: rest) => some (r, rest)
        | _ => none
    else if specialChar c then none
    else some (.cls false [.single c], cs)

/-- Parse a (possibly empty) concatenation of atoms with repetition
operators, stopping at `|`, `)` or the end of the pattern. -/
def parseCat : Nat → List Char → Option (Regex × List Char)
  | 0, _ => none
  | fuel + 1, s =>
    match s with
    | [] => some (.eps, [])
    | c :: _ =>
      if c = '|' ∨ c = ')' then some (.eps, s)
      else
        match parseAtom fuel s with
        | none => none
        | some (r, rest) =>
          match applyRepeatOp r rest with
          | (r', rest') =>
            match parseCat fuel rest' with
            | none => none
            | some (r₂, rest₂) => some (.cat r' r₂, rest₂)

/-- Parse an alternation of concatenations separated by `|`. -/
def parseAlt : Nat → List Char → Option (Regex × List Char)
  | 0, _ => none
  | fuel + 1, s =>
    match parseCat fuel s with
    | none => none
    | some (r, '|' :: rest) =>
      match parseAlt fuel rest with
      | none => none
      | some (r₂, rest₂) => some (.alt r r₂, rest₂)
    | some (r, rest) => some (r, rest)

end

/-- Compile a whole pattern string, requiring all input to be consumed;
`none` models `re.error` (including patterns outside the modelled subset). -/
def parseRegex (pat : PyStr) : Option Regex :=
  match parseAlt (3 * pat.length + 4) pat with
  | some (r, []) => some r
  | _ => none

/-- Truthiness of `re.match(pat, s)`: `none` when the pattern does not
compile, otherwise whether some prefix of `s` matches, anchored at
position zero. -/
def pyReMatch (pat s : PyStr) : Option Bool :=
  (parseRegex pat).map (fun r => rmatch r s)

/-! ### The compare routine -/

/-- Outcome of `compare`: normal return, one of the three
`AssertionError`s, or an `re.error` from a pattern that does not compile.
The content-mismatch error carries the offending actual line and expected
pattern, exactly the pair interpolated into the exception message. -/
inductive CompareResult where
  | ok
  | moreExpected
  | moreActual
  | mismatch (actual expected : PyStr)
  | regexError (pat : PyStr)
deriving DecidableEq, Repr

/-- The lockstep walk of `compare` over the two line sequences, modelling
`map(None, actual_lines, expected_lines)` (pairing with a `None` fill for
the shorter sequence) and the three in-loop checks in their source order. -/
def compareLines : List PyStr → List PyStr → CompareResult
  | [], [] => .ok
  | [], _ :: _ => .moreExpected
  | _ :: _, [] => .moreActual
  | a :: as, e :: es =>
    match pyReMatch e a with
    | none => .regexError e
    | some true => compareLines as es
    | some false => .mismatch a e

/-- `compare(actual, expected, check_prefix)` over file contents. -/
def compare (actual expected : PyStr) ( check_prefix : PyStr) : CompareResult :=
  compareLines (_actual_lines actual) (_expected_lines expected check_prefix)

/-- Python 2 `map(None, xs, ys)`: the fully materialized zip-longest pair
list, padding the shorter sequence with `none`.  Building it consumes both
sequences to exhaustion before the caller examines a single pair. -/
def mapNone : List PyStr → List PyStr → List (Option PyStr × Option PyStr)
  | [], es => es.map (fun e => (none, some e))
  | a :: as, [] => (some a, none) :: mapNone as []
  | a :: as, e :: es => (some a, some e) :: mapNone as es

/-- The body of `compare`'s `for` loop, run over the materialized pair list,
with the three checks in their source order (`actual_line is None` first,
then `expected_line is None`, then `re.match`). -/
def compareLoop : List (Option PyStr × Option PyStr) → CompareResult
  | [] => .ok
  | (ao, eo) :: rest =>
    match ao with
    | none => .moreExpected
    | some a =>
      match eo with
      | none => .moreActual
      | some e =>
        match pyReMatch e a with
        | none => .regexError e
        | some true => compareLoop rest
        | some false => .mismatch a e

/-- The regex denoting a literal string, one `cat` per character. -/
def litRegex (q : PyStr) : Regex :=
  q.foldr (fun c r => .cat (.cls false [.single c]) r) .eps

/-! ### Matcher lemmas -/

theorem rmatch_eps (s : PyStr) : rmatch .eps s = true := by
  cases s <;> simp [rmatch, nullable]

theorem rmatch_alt (r₁ r₂ : Regex) (s : PyStr) :
    rmatch (.alt r₁ r₂) s = (rmatch r₁ s || rmatch r₂ s) := by
  induction s generalizing r₁ r₂ with
  | nil => simp [rmatch, nullable]
  | cons c cs ih =>
    simp only [rmatch, deriv, nullable, ih]
    cases nullable r₁ <;> cases nullable r₂ <;>
      cases rmatch (deriv r₁ c) cs <;> cases rmatch (deriv r₂ c) cs <;> simp

theorem rmatch_cat_nul (r : Regex) (s : PyStr) :
    rmatch (.cat .nul r) s = false := by
  induction s generalizing r with
  | nil => simp [rmatch, nullable]
  | cons c cs ih => simp [rmatch, deriv, nullable, ih]

theorem rmatch_cat_eps (r : Regex) (s : PyStr) :
    rmatch (.cat .eps r) s = rmatch r s := by
  cases s with
  | nil => simp [rmatch, nullable]
  | cons c cs =>
    simp [rmatch, deriv, nullable, rmatch_alt, rmatch_cat_nul]

theorem litRegex_nil : litRegex [] = .eps := rfl

theorem litRegex_cons (c : Char) (q : PyStr) :
    litRegex (c :: q) = .cat (.cls false [.single c]) (litRegex q) := rfl

theorem rmatch_lit (q s : PyStr) :
    rmatch (litRegex q) s = List.isPrefixOf q s := by
  induction q generalizing s with
  | nil => simp [litRegex_nil, rmatch_eps, List.isPrefixOf]
  | cons c q ih =>
    cases s with
    | nil => simp [litRegex_cons, rmatch, nullable, List.isPrefixOf]
    | cons d ds =>
      by_cases hdc : d = c
      · subst hdc
        simp only [litRegex_cons, rmatch, nullable, deriv, clsMatch, citemMatch,
          List.any, rmatch_cat_eps, List.isPrefixOf]
        simp only [decide_True, Bool.false_or, Bool.false_and, Bool.or_false,
          Bool.and_false, Bool.false_eq_true, if_true, if_false, bne_self_eq_false,
          Bool.not_false, beq_self_eq_true, Bool.true_and, Bool.and_true]
        try simp [rmatch_cat_eps]
        exact ih ds
      · have hcd : ¬ (c = d) := fun h => hdc h.symm
        simp [litRegex_cons, rmatch, nullable, deriv, clsMatch, citemMatch,
          List.any, hdc, hcd, rmatch_cat_nul, List.isPrefixOf]

theorem rmatch_iff_exists (r : Regex) (s : PyStr) :
    rmatch r s = true ↔
      ∃ n, n ≤ s.length ∧ rmatchWhole r (s.take n) = true := by
  induction s generalizing r with
  | nil =>
    simp [rmatch, rmatchWhole, Nat.le_zero]
  | cons c cs ih =>
    simp only [rmatch, Bool.or_eq_true]
    constructor
    · rintro (h | h)
      · exact ⟨0, Nat.zero_le _, by simpa [rmatchWhole] using h⟩
      · obtain ⟨n, hn, hw⟩ := (ih (deriv r c)).mp h
        refine ⟨n + 1, Nat.succ_le_succ hn, ?_⟩
        simpa [rmatchWhole, List.take, List.foldl] using hw
    · rintro ⟨n, hn, hw⟩
      cases n with
      | zero => exact Or.inl (by simpa [rmatchWhole] using hw)
      | succ m =>
        refine Or.inr ((ih (deriv r c)).mpr ⟨m, Nat.le_of_succ_le_succ hn, ?_⟩)
        simpa [rmatchWhole, List.take, List.foldl] using hw

/-! ### Parser lemmas: plain literal patterns parse to `litRegex` -/

theorem specialChar_elim (c : Char) (h : specialChar c = false) :
    ¬ c = '(' ∧ ¬ c = ')' ∧ ¬ c = '[' ∧ ¬ c = ']' ∧ ¬ c = '{' ∧ ¬ c = '}' ∧
    ¬ c = '*' ∧ ¬ c = '+' ∧ ¬ c = '?' ∧ ¬ c = '^' ∧ ¬ c = '$' ∧ ¬ c = '|' ∧
    ¬ c = '\\' ∧ ¬ c = '.' := by
  simp only [specialChar, Bool.or_eq_false_iff, decide_eq_false_iff_not] at h
  tauto

theorem parseAtom_plain (fuel : Nat) (c : Char) (cs : List Char)
    (h : specialChar c = false) :
    parseAtom (fuel + 1) (c :: cs) = some (.cls false [.single c], cs) := by
  obtain ⟨h1, h2, h3, h4, h5, h6, h7, h8, h9, h10, h11, h12, h13, h14⟩ :=
    specialChar_elim c h
  simp [parseAtom, h1, h3, h13, h14, h]

theorem applyRepeatOp_plain (r : Regex) (q : List Char)
    (h : ∀ c ∈ q, specialChar c = false) :
    applyRepeatOp r q = (r, q) := by
  cases q with
  | nil => rfl
  | cons d q' =>
    obtain ⟨_, _, _, _, _, _, h7, h8, h9, _⟩ :=
      specialChar_elim d (h d (List.mem_cons_self d q'))
    simp [applyRepeatOp, h7, h8, h9]

theorem parseCat_plain (q : PyStr) : ∀ fuel : Nat,
    (∀ c ∈ q, specialChar c = false) → q.length < fuel →
    parseCat fuel q = some (litRegex q, []) := by
  induction q with
  | nil =>
    intro fuel _ hf
    obtain ⟨f, rfl⟩ : ∃ f, fuel = f + 1 := ⟨fuel - 1, by omega⟩
    rfl
  | cons c q ih =>
    intro fuel h hf
    obtain ⟨f, rfl⟩ : ∃ f, fuel = f + 1 := ⟨fuel - 1, by omega⟩
    have hq : q.length < f := by simpa using Nat.lt_of_succ_lt_succ hf
    obtain ⟨g, rfl⟩ : ∃ g, f = g + 1 := ⟨f - 1, by omega⟩
    have hc := h c (List.mem_cons_self c q)
    have h12 : ¬ c = '|' := (specialChar_elim c hc).2.2.2.2.2.2.2.2.2.2.2.1
    have hq' : ∀ d ∈ q, specialChar d = false :=
      fun d hd => h d (List.mem_cons_of_mem c hd)
    have hbar : ¬ (c = '|' ∨ c = ')') := by
      intro hor
      rcases hor with h' | h'
      · exact h12 h'
      · exact (specialChar_elim c hc).2.1 h'
    rw [parseCat.eq_def]
    dsimp only
    rw [if_neg hbar]
    rw [parseAtom_plain g c q hc]
    dsimp only
    rw [applyRepeatOp_plain _ q hq']
    dsimp only
    rw [ih (g + 1) hq' hq]
    rfl

theorem parseAlt_plain (q : PyStr) (fuel : Nat)
    (h : ∀ c ∈ q, specialChar c = false) (hf : q.length + 1 < fuel) :
    parseAlt fuel q = some (litRegex q, []) := by
  obtain ⟨f, rfl⟩ : ∃ f, fuel = f + 1 := ⟨fuel - 1, by omega⟩
  have hq : q.length < f := by omega
  simp only [parseAlt]
  rw [parseCat_plain q f h hq]

theorem parseRegex_plain (q : PyStr) (h : ∀ c ∈ q, specialChar c = false) :
    parseRegex q = some (litRegex q) := by
  have hf : q.length + 1 < 3 * q.length + 4 := by omega
  simp only [parseRegex]
  rw [parseAlt_plain q (3 * q.length + 4) h hf]

theorem pyReMatch_plain (q s : PyStr) (h : ∀ c ∈ q, specialChar c = false) :
    pyReMatch q s = some (List.isPrefixOf q s) := by
  simp [pyReMatch, parseRegex_plain q h, rmatch_lit]

/-! ### Line-splitting lemmas -/

theorem pyLines_newline (cs : PyStr) :
    pyLines ('\n' :: cs) = ['\n'] :: pyLines cs := by
  simp [pyLines]

theorem pyLines_other_nil (c : Char) (cs : PyStr) (hc : ¬ c = '\n')
    (hcs : pyLines cs = []) : pyLines (c :: cs) = [[c]] := by
  rw [pyLines.eq_def]
  simp [hc, hcs]

theorem pyLines_other_cons (c : Char) (cs : PyStr) (l : PyStr) (ls : List PyStr)
    (hc : ¬ c = '\n') (hcs : pyLines cs = l :: ls) :
    pyLines (c :: cs) = (c :: l) :: ls := by
  rw [pyLines.eq_def]
  simp [hc, hcs]

theorem pyLines_join (s : PyStr) : (pyLines s).flatten = s := by
  induction s with
  | nil => rfl
  | cons c cs ih =>
    by_cases hc : c = '\n'
    · subst hc
      simp [pyLines_newline, ih]
    · cases hcs : pyLines cs with
      | nil =>
        have hnil : cs = [] := by
          rw [hcs] at ih
          simpa using ih.symm
        subst hnil
        simp [pyLines_other_nil c [] hc hcs]
      | cons l ls =>
        rw [hcs] at ih
        rw [pyLines_other_cons c cs l ls hc hcs]
        simpa using ih

theorem pyLines_ne_nil (s : PyStr) : ∀ l ∈ pyLines s, l ≠ [] := by
  induction s with
  | nil => intro l hl; simp [pyLines] at hl
  | cons c cs ih =>
    intro l hl
    by_cases hc : c = '\n'
    · subst hc
      rw [pyLines_newline] at hl
      rcases List.mem_cons.mp hl with rfl | hl
      · simp
      · exact ih l hl
    · cases hcs : pyLines cs with
      | nil =>
        rw [pyLines_other_nil c cs hc hcs] at hl
        simp only [List.mem_singleton] at hl
        subst hl
        simp
      | cons l' ls =>
        rw [pyLines_other_cons c cs l' ls hc hcs] at hl
        rcases List.mem_cons.mp hl with rfl | hl
        · simp
        · exact ih l (by rw [hcs]; exact List.mem_cons_of_mem l' hl)

theorem pyLines_dropLast_newline (s : PyStr) :
    ∀ l ∈ (pyLines s).dropLast, l.getLast? = some '\n' := by
  induction s with
  | nil => intro l hl; simp [pyLines] at hl
  | cons c cs ih =>
    intro l hl
    by_cases hc : c = '\n'
    · subst hc
      rw [pyLines_newline] at hl
      cases hcs : pyLines cs with
      | nil =>
        rw [hcs] at hl
        simp at hl
      | cons l' ls =>
        rw [hcs, List.dropLast_cons₂] at hl
        rcases List.mem_cons.mp hl with rfl | hl'
        · simp
        · exact ih l (by rw [hcs]; exact hl')
    · cases hcs : pyLines cs with
      | nil =>
        rw [pyLines_other_nil c cs hc hcs] at hl
        simp at hl
      | cons l' ls =>
        rw [pyLines_other_cons c cs l' ls hc hcs] at hl
        cases hls : ls with
        | nil =>
          rw [hls] at hl
          simp at hl
        | cons l₂ ls₂ =>
          rw [hls, List.dropLast_cons₂] at hl
          rcases List.mem_cons.mp hl with rfl | hl'
          · have hl'n : l'.getLast? = some '\n' := by
              apply ih
              rw [hcs, hls, List.dropLast_cons₂]
              exact List.mem_cons_self _ _
            have hne : l' ≠ [] := by
              intro h
              rw [h] at hl'n
              simp at hl'n
            obtain ⟨d, ds, rfl⟩ := List.exists_cons_of_ne_nil hne
            simpa using hl'n
          · apply ih
            rw [hcs, hls, List.dropLast_cons₂]
            exact List.mem_cons_of_mem _ hl'

/-! ### Expected-line extraction lemmas -/

theorem expectedOfLines_eq (ls : List PyStr) (p : PyStr) :
    expectedOfLines ls p =
      (ls.filter (fun l => List.isPrefixOf p l)).map (fun l => l.drop p.length) := by
  induction ls with
  | nil => rfl
  | cons l ls ih =>
    by_cases hp : List.isPrefixOf p l
    · simp [expectedOfLines, List.filter_cons, hp, ih]
    · simp [expectedOfLines, List.filter_cons, hp, ih]

theorem expectedOfLines_nil_prefix (ls : List PyStr) :
    expectedOfLines ls [] = ls := by
  induction ls with
  | nil => rfl
  | cons l ls ih => simp [expectedOfLines, List.isPrefixOf, ih]

theorem mem_expectedOfLines (ls : List PyStr) (p pat : PyStr)
    (h : pat ∈ expectedOfLines ls p) :
    ∃ l ∈ ls, List.isPrefixOf p l = true ∧ pat = l.drop p.length := by
  rw [expectedOfLines_eq] at h
  simp only [List.mem_map, List.mem_filter] at h
  obtain ⟨l, ⟨hl, hpre⟩, rfl⟩ := h
  exact ⟨l, hl, hpre, rfl⟩

/-! ### Lockstep-walk lemmas -/

theorem compareLines_all_match (as : List PyStr) : ∀ es : List PyStr,
    as.length = es.length →
    (∀ i, i < as.length → i < es.length →
      pyReMatch (es.getD i []) (as.getD i []) = some true) →
    compareLines as es = .ok := by
  induction as with
  | nil =>
    intro es h _
    cases es with
    | nil => rfl
    | cons e es => simp at h
  | cons a as ih =>
    intro es h hm
    cases es with
    | nil => simp at h
    | cons e es =>
      have h0 := hm 0 (by simp) (by simp)
      simp only [List.getD_cons_zero] at h0
      simp only [compareLines, h0]
      refine ih es (by simpa using h) (fun i hi1 hi2 => ?_)
      have := hm (i + 1) (by simpa using Nat.succ_lt_succ hi1)
        (by simpa using Nat.succ_lt_succ hi2)
      simpa [List.getD_cons_succ] using this

theorem compareLines_mismatch_at (as : List PyStr) : ∀ (es : List PyStr) (i : Nat),
    i < as.length → i < es.length →
    (∀ j, j < i →
      pyReMatch (es.getD j []) (as.getD j []) = some true) →
    pyReMatch (es.getD i []) (as.getD i []) = some false →
    compareLines as es = .mismatch (as.getD i []) (es.getD i []) := by
  induction as with
  | nil => intro es i ha _ _ _; simp at ha
  | cons a as ih =>
    intro es i ha he hprev hfail
    cases es with
    | nil => simp at he
    | cons e es =>
      cases i with
      | zero =>
        simp only [List.getD_cons_zero] at hfail ⊢
        simp only [compareLines, hfail]
      | succ i =>
        have h0 := hprev 0 (Nat.succ_pos i)
        simp only [List.getD_cons_zero] at h0
        simp only [compareLines, h0, List.getD_cons_succ]
        refine ih es i (by simpa using ha) (by simpa using he)
          (fun j hj => ?_) ?_
        · have := hprev (j + 1) (Nat.succ_lt_succ hj)
          simpa [List.getD_cons_succ] using this
        · simpa [List.getD_cons_succ] using hfail

theorem compareLines_actual_short (as : List PyStr) : ∀ es : List PyStr,
    as.length < es.length →
    (∀ j, j < as.length → j < es.length →
      pyReMatch (es.getD j []) (as.getD j []) = some true) →
    compareLines as es = .moreExpected := by
  induction as with
  | nil =>
    intro es h _
    cases es with
    | nil => simp at h
    | cons e es => rfl
  | cons a as ih =>
    intro es h hm
    cases es with
    | nil => simp at h
    | cons e es =>
      have h0 := hm 0 (by simp) (by simp)
      simp only [List.getD_cons_zero] at h0
      simp only [compareLines, h0]
      refine ih es (by simpa using h) (fun j hj1 hj2 => ?_)
      have := hm (j + 1) (by simpa using Nat.succ_lt_succ hj1)
        (by simpa using Nat.succ_lt_succ hj2)
      simpa [List.getD_cons_succ] using this

theorem compareLines_expected_short (as : List PyStr) : ∀ es : List PyStr,
    es.length < as.length →
    (∀ j, j < as.length → j < es.length →
      pyReMatch (es.getD j []) (as.getD j []) = some true) →
    compareLines as es = .moreActual := by
  induction as with
  | nil => intro es h _; simp at h
  | cons a as ih =>
    intro es h hm
    cases es with
    | nil => rfl
    | cons e es =>
      have h0 := hm 0 (by simp) (by simp)
      simp only [List.getD_cons_zero] at h0
      simp only [compareLines, h0]
      refine ih es (by simpa using h) (fun j hj1 hj2 => ?_)
      have := hm (j + 1) (by simpa using Nat.succ_lt_succ hj1)
        (by simpa using Nat.succ_lt_succ hj2)
      simpa [List.getD_cons_succ] using this

theorem compareLines_append_of_mismatch (as : List PyStr) :
    ∀ (es as' es' : List PyStr) (a e : PyStr),
    compareLines as es = .mismatch a e →
    compareLines (as ++ as') (es ++ es') = .mismatch a e := by
  induction as with
  | nil =>
    intro es as' es' a e h
    cases es with
    | nil => simp [compareLines] at h
    | cons e₁ es => simp [compareLines] at h
  | cons a₁ as ih =>
    intro es as' es' a e h
    cases es with
    | nil => simp [compareLines] at h
    | cons e₁ es =>
      rw [List.cons_append, List.cons_append]
      simp only [compareLines] at h ⊢
      cases hre : pyReMatch e₁ a₁ with
      | none => rw [hre] at h; simp at h
      | some b =>
        cases b with
        | true =>
          rw [hre] at h
          dsimp only at h ⊢
          exact ih es as' es' a e h
        | false =>
          rw [hre] at h
          dsimp only at h ⊢
          exact h

theorem compareLines_eq_loop (as : List PyStr) : ∀ es : List PyStr,
    compareLines as es = compareLoop (mapNone as es) := by
  induction as with
  | nil =>
    intro es
    cases es with
    | nil => rfl
    | cons e es => rfl
  | cons a as ih =>
    intro es
    cases es with
    | nil => rfl
    | cons e es =>
      simp only [compareLines, mapNone, compareLoop]
      cases pyReMatch e a with
      | none => rfl
      | some b =>
        cases b with
        | true => exact ih es
        | false => rfl

/-! ### Additional extraction helpers -/

theorem expectedOfLines_skip (pre post : List PyStr) (l p : PyStr)
    (h : List.isPrefixOf p l = false) :
    expectedOfLines (pre ++ l :: post) p = expectedOfLines (pre ++ post) p := by
  induction pre with
  | nil => simp [expectedOfLines, h]
  | cons q pre ih =>
    by_cases hq : List.isPrefixOf p q
    · simp [expectedOfLines, hq, ih]
    · simp [expectedOfLines, hq, ih]

theorem expectedOfLines_annotated (post : List PyStr) (p rest : PyStr) :
    expectedOfLines ((p ++ rest) :: post) p = rest :: expectedOfLines post p := by
  have hpre : List.isPrefixOf p (p ++ rest) = true := by
    rw [List.isPrefixOf_iff_prefix]
    exact List.prefix_append p rest
  simp [expectedOfLines, hpre, List.drop_left]

/-! ### The claims -/

/-- C1: for every pair of inputs in which the number of actual-output lines
equals the number of annotated expectation lines and, for every position
`i`, the `i`-th pattern matches the `i`-th actual line at position zero,
`compare` succeeds, returning `ok` (its normal return, raising no error). -/
theorem compare_ok_of_equal_counts_all_match
    (actual expected : PyStr) ( check_prefix : PyStr)
    (hlen : (_actual_lines actual).length =
      (_expected_lines expected check_prefix).length)
    (hmatch : ∀ i, i < (_actual_lines actual).length →
      i < (_expected_lines expected check_prefix).length →
      pyReMatch ((_expected_lines expected check_prefix).getD i [])
        ((_actual_lines actual).getD i []) = some true) :
    compare actual expected check_prefix = .ok :=
  compareLines_all_match _ _ hlen hmatch

/-- Witness for C1 at the spec's concrete scenario (with an unannotated
line interleaved): actual `hello\nworld\n` against patterns `hel+o`,
`w.rld` under the prefix `# `. -/
theorem compare_ok_of_equal_counts_all_match_witness :
    compare (str "hello\nworld\n") (str "x\n# hel+o\n# w.rld\n") (str "# ") =
      .ok := by
  apply compare_ok_of_equal_counts_all_match
  · decide
  · intro i hi _
    have h2 : i < 2 := hi
    interval_cases i
    · decide
    · decide

/-- C2: with equal counts, when every pattern before position `i` matches
its paired line and the `i`-th fails, `compare` fails at that first
position, and the diagnostic carries exactly the `i`-th actual line and the
`i`-th pattern; no later pair appears in the result. -/
theorem compare_mismatch_reports_first_failure
    (actual expected : PyStr) ( check_prefix : PyStr) (i : Nat)
    (_hlen : (_actual_lines actual).length =
      (_expected_lines expected check_prefix).length)
    (ha : i < (_actual_lines actual).length)
    (he : i < (_expected_lines expected check_prefix).length)
    (hprev : ∀ j, j < i →
      pyReMatch ((_expected_lines expected check_prefix).getD j [])
        ((_actual_lines actual).getD j []) = some true)
    (hfail : pyReMatch ((_expected_lines expected check_prefix).getD i [])
      ((_actual_lines actual).getD i []) = some false) :
    compare actual expected check_prefix =
      .mismatch ((_actual_lines actual).getD i [])
        ((_expected_lines expected check_prefix).getD i []) :=
  compareLines_mismatch_at _ _ i ha he hprev hfail

/-- Witness for C2: the second and third patterns both fail, but the
diagnostic carries exactly the second pair. -/
theorem compare_mismatch_reports_first_failure_witness :
    compare (str "aa\nbb\ncc\n") (str "# aa\n# xx\n# yy\n") (str "# ") =
      .mismatch (str "bb\n") (str "xx\n") := by
  have h := compare_mismatch_reports_first_failure
    (str "aa\nbb\ncc\n") (str "# aa\n# xx\n# yy\n") (str "# ") 1
    (by decide) (by decide) (by decide)
    (fun j hj => by interval_cases j; decide)
    (by decide)
  exact h

/-- C3: during the lockstep walk with all pairs so far matching, exhausting
the actual lines first fails with the more-lines-were-expected error, and
exhausting the patterns first fails with the more-actual-lines error. -/
theorem compare_exhaustion_errors (actual expected : PyStr) ( check_prefix : PyStr) :
    ((_actual_lines actual).length <
        (_expected_lines expected check_prefix).length →
      (∀ j, j < (_actual_lines actual).length →
        j < (_expected_lines expected check_prefix).length →
        pyReMatch ((_expected_lines expected check_prefix).getD j [])
          ((_actual_lines actual).getD j []) = some true) →
      compare actual expected check_prefix = .moreExpected) ∧
    ((_expected_lines expected check_prefix).length <
        (_actual_lines actual).length →
      (∀ j, j < (_actual_lines actual).length →
        j < (_expected_lines expected check_prefix).length →
        pyReMatch ((_expected_lines expected check_prefix).getD j [])
          ((_actual_lines actual).getD j []) = some true) →
      compare actual expected check_prefix = .moreActual) :=
  ⟨fun h hm => compareLines_actual_short _ _ h hm,
   fun h hm => compareLines_expected_short _ _ h hm⟩

/-- Witness for C3 at the spec's concrete scenarios 2 and 3. -/
theorem compare_exhaustion_errors_witness :
    compare (str "hello\n") (str "# hello\n# extra\n") (str "# ") =
        .moreExpected ∧
    compare (str "hello\ngoodbye\n") (str "# hello\n") (str "# ") =
        .moreActual := by
  constructor
  · exact (compare_exhaustion_errors (str "hello\n")
      (str "# hello\n# extra\n") (str "# ")).1 (by decide)
      (fun j hj _ => by
        have h1 : j < 1 := hj
        interval_cases j
        decide)
  · exact (compare_exhaustion_errors (str "hello\ngoodbye\n")
      (str "# hello\n") (str "# ")).2 (by decide)
      (fun j _ hj => by
        have h1 : j < 1 := hj
        interval_cases j
        decide)

/-- C4 counterexample: the counts differ (2 actual lines, 1 pattern) but,
because the first pair already fails to match, `compare` raises the
content-mismatch error, not either length-mismatch diagnosis. -/
theorem compare_length_mismatch_counterexample :
    (_actual_lines (str "a\nb\n")).length ≠
        (_expected_lines (str "# x\n") (str "# ")).length ∧
    compare (str "a\nb\n") (str "# x\n") (str "# ") ≠ .moreExpected ∧
    compare (str "a\nb\n") (str "# x\n") (str "# ") ≠ .moreActual := by
  refine ⟨by decide, by decide, by decide⟩

/-- C4 (amended): for every pair of inputs in which the counts differ and
every pattern up to the shorter count matches its paired line, `compare`
fails with the corresponding length-mismatch diagnosis. -/
theorem compare_length_mismatch_diagnosis
    (actual expected : PyStr) ( check_prefix : PyStr)
    (hne : (_actual_lines actual).length ≠
      (_expected_lines expected check_prefix).length)
    (hmatch : ∀ j, j < (_actual_lines actual).length →
      j < (_expected_lines expected check_prefix).length →
      pyReMatch ((_expected_lines expected check_prefix).getD j [])
        ((_actual_lines actual).getD j []) = some true) :
    compare actual expected check_prefix =
      (if (_actual_lines actual).length <
          (_expected_lines expected check_prefix).length
        then .moreExpected else .moreActual) := by
  rcases Nat.lt_or_ge (_actual_lines actual).length
      (_expected_lines expected check_prefix).length with hlt | hge
  · rw [if_pos hlt]
    exact compareLines_actual_short _ _ hlt hmatch
  · have hgt : (_expected_lines expected check_prefix).length <
        (_actual_lines actual).length :=
      lt_of_le_of_ne hge (Ne.symm hne)
    rw [if_neg (Nat.not_lt.mpr hge)]
    exact compareLines_expected_short _ _ hgt hmatch

/-- Witness for the amended C4: one extra pattern, all available pairs
matching, diagnosed as expected-longer. -/
theorem compare_length_mismatch_diagnosis_witness :
    compare (str "hello\n") (str "# hello\n# extra\n") (str "# ") =
      .moreExpected := by
  have h := compare_length_mismatch_diagnosis (str "hello\n")
    (str "# hello\n# extra\n") (str "# ") (by decide)
    (fun j hj _ => by
      have h1 : j < 1 := hj
      interval_cases j
      decide)
  simpa using h

/-- C5: a line of the expectations file contributes to the pattern sequence
exactly when it starts with the check prefix (position zero, no trimming);
non-prefixed lines are dropped without consuming a position, and a prefixed
line contributes exactly the remainder after the prefix. -/
theorem expected_lines_filter_strip (s p l rest : PyStr) (pre post : List PyStr) :
    (_expected_lines s p =
      ((pyLines s).filter (fun l2 => List.isPrefixOf p l2)).map
        (fun l2 => l2.drop p.length)) ∧
    (List.isPrefixOf p l = false →
      expectedOfLines (pre ++ l :: post) p = expectedOfLines (pre ++ post) p) ∧
    (expectedOfLines ((p ++ rest) :: post) p = rest :: expectedOfLines post p) :=
  ⟨expectedOfLines_eq (pyLines s) p,
   fun h => expectedOfLines_skip pre post l p h,
   expectedOfLines_annotated post p rest⟩

/-- Witness for C5: a non-prefixed line (here differing from the prefix in
its second character) contributes nothing, and an annotated line
contributes its remainder. -/
theorem expected_lines_filter_strip_witness :
    (_expected_lines (str "z\n# a\n") (str "# ") =
      ((pyLines (str "z\n# a\n")).filter
          (fun l2 => List.isPrefixOf (str "# ") l2)).map
        (fun l2 => l2.drop (str "# ").length)) ∧
    (expectedOfLines ([str "# a\n"] ++ str "#x\n" :: [str "# b\n"]) (str "# ") =
      expectedOfLines ([str "# a\n"] ++ [str "# b\n"]) (str "# ")) ∧
    (expectedOfLines ((str "# " ++ str "pat\n") :: [str "q\n"]) (str "# ") =
      str "pat\n" :: expectedOfLines [str "q\n"] (str "# ")) := by
  have h1 := expected_lines_filter_strip (str "z\n# a\n") (str "# ")
    (str "#x\n") (str "pat\n") [str "# a\n"] [str "# b\n"]
  have h2 := expected_lines_filter_strip (str "z\n# a\n") (str "# ")
    (str "#x\n") (str "pat\n") [str "# a\n"] [str "q\n"]
  exact ⟨h1.1, h1.2.1 (by decide), h2.2.2⟩

/-- C6: the empty pattern (an annotation that is the check prefix with
nothing following) matches every actual line, and a pair whose pattern is
empty never produces a content mismatch: the walk simply moves on. -/
theorem empty_pattern_matches_any_line (line a : PyStr) (as es : List PyStr) :
    pyReMatch [] line = some true ∧
    compareLines (a :: as) ([] :: es) = compareLines as es := by
  have hparse : parseRegex [] = some .eps := rfl
  constructor
  · simp [pyReMatch, hparse, rmatch_eps]
  · simp [compareLines, pyReMatch, hparse, rmatch_eps]

/-- C7: pattern-against-line comparison is an anchored match at position
zero that accepts when some prefix of the line is in the pattern's
language: trailing content beyond the matched prefix is allowed, and an
occurrence of the pattern starting after position zero does not count. -/
theorem re_match_is_anchored_prefix (pat s : PyStr) (r : Regex)
    (hp : parseRegex pat = some r) :
    (pyReMatch pat s = some true ↔
      ∃ n, n ≤ s.length ∧ rmatchWhole r (s.take n) = true) := by
  have hm : pyReMatch pat s = some (rmatch r s) := by simp [pyReMatch, hp]
  rw [hm]
  constructor
  · intro h
    exact (rmatch_iff_exists r s).mp (Option.some.inj h)
  · intro h
    rw [(rmatch_iff_exists r s).mpr h]

/-- Witness for C7: the pattern `b` against the line `ab` (where `b` occurs
only at position one, so no prefix of the line is matched). -/
theorem re_match_is_anchored_prefix_witness :
    (pyReMatch (str "b") (str "ab") = some true ↔
      ∃ n, n ≤ (str "ab").length ∧
        rmatchWhole (.cat (.cls false [.single 'b']) .eps)
          ((str "ab").take n) = true) :=
  re_match_is_anchored_prefix (str "b") (str "ab")
    (.cat (.cls false [.single 'b']) .eps) (by decide)

/-- C8 counterexample: verification fails already at pair 0, so only the
first line of each input is needed to produce and check the failing pair —
yet the pair list that `map(None, ...)` materializes before the loop's
first check contains the later lines of both inputs.  The inputs are not
consumed one pair at a time. -/
theorem compare_lazy_reading_counterexample :
    compare (str "foo\nzz\n") (str "# bar\n# qq\n") (str "# ") =
        .mismatch (str "foo\n") (str "bar\n") ∧
    mapNone (_actual_lines (str "foo\nzz\n"))
        (_expected_lines (str "# bar\n# qq\n") (str "# ")) =
      [(some (str "foo\n"), some (str "bar\n")),
       (some (str "zz\n"), some (str "qq\n"))] := by
  refine ⟨by decide, by decide⟩

/-- C8 (amended): `compare` materializes the pairing eagerly — Python 2's
`map(None, ...)` builds the complete zip-longest pair list, consuming both
line sequences to exhaustion, before the first check runs — and the walk
over that list short-circuits only the checking: a content mismatch inside
the already-walked part fixes the result, whatever lines follow in either
input beyond that point. -/
theorem compare_materializes_then_short_circuits
    (actual expected : PyStr) ( check_prefix : PyStr)
    (as es as2 es2 : List PyStr) (a e : PyStr)
    (h : compareLines as es = .mismatch a e) :
    compare actual expected check_prefix =
      compareLoop (mapNone (_actual_lines actual)
        (_expected_lines expected check_prefix)) ∧
    compareLines (as ++ as2) (es ++ es2) = .mismatch a e :=
  ⟨compareLines_eq_loop (_actual_lines actual)
      (_expected_lines expected check_prefix),
   compareLines_append_of_mismatch as es as2 es2 a e h⟩

/-- Witness for the amended C8: a first-pair mismatch is unaffected by
appended junk lines on both sides, and `compare` agrees with the loop over
the materialized pair list on a concrete input. -/
theorem compare_materializes_then_short_circuits_witness :
    compare (str "foo\n") (str "# bar\n") (str "# ") =
      compareLoop (mapNone (_actual_lines (str "foo\n"))
        (_expected_lines (str "# bar\n") (str "# "))) ∧
    compareLines ([str "foo\n"] ++ [str "zz\n"])
        ([str "bar\n"] ++ [str "qq\n"]) =
      .mismatch (str "foo\n") (str "bar\n") :=
  compare_materializes_then_short_circuits (str "foo\n") (str "# bar\n")
    (str "# ") [str "foo\n"] [str "bar\n"] [str "zz\n"] [str "qq\n"]
    (str "foo\n") (str "bar\n") (by decide)

/-- C9: lines are compared with terminators included: the split lines
reassemble exactly to the file content, every non-final line ends in a
newline, each pattern is the raw remainder of its annotated line after the
prefix, and a (metacharacter-free) pattern ending in a newline matches only
lines in which that literal newline is present right after the literal text. -/
theorem lines_and_patterns_keep_newlines (content p q line : PyStr) :
    ((pyLines content).flatten = content) ∧
    (∀ l ∈ (pyLines content).dropLast, l.getLast? = some '\n') ∧
    (∀ pat ∈ _expected_lines content p, ∃ l ∈ pyLines content,
      List.isPrefixOf p l = true ∧ pat = l.drop p.length) ∧
    ((∀ c ∈ q, specialChar c = false) →
      (pyReMatch (q ++ ['\n']) line = some true ↔
        List.isPrefixOf (q ++ ['\n']) line = true)) := by
  refine ⟨pyLines_join content, pyLines_dropLast_newline content,
    fun pat hpat => mem_expectedOfLines (pyLines content) p pat hpat, ?_⟩
  intro hq
  have hq' : ∀ c ∈ q ++ ['\n'], specialChar c = false := by
    intro c hc
    rcases List.mem_append.mp hc with hc | hc
    · exact hq c hc
    · simp only [List.mem_singleton] at hc
      subst hc
      decide
  rw [pyReMatch_plain (q ++ ['\n']) line hq']
  constructor
  · intro h
    exact Option.some.inj h
  · intro h
    rw [h]

/-- Witness for C9: content `ab\ncd` (unterminated last line), the prefix
`# `, and the plain pattern text `foo` extended by a newline against a
terminated and an unterminated line. -/
theorem lines_and_patterns_keep_newlines_witness :
    ((pyLines (str "ab\ncd")).flatten = str "ab\ncd") ∧
    (pyReMatch (str "foo" ++ ['\n']) (str "foo\nmore") = some true ↔
      List.isPrefixOf (str "foo" ++ ['\n']) (str "foo\nmore") = true) ∧
    (pyReMatch (str "foo" ++ ['\n']) (str "foo") = some true ↔
      List.isPrefixOf (str "foo" ++ ['\n']) (str "foo") = true) := by
  refine ⟨(lines_and_patterns_keep_newlines (str "ab\ncd") (str "# ")
      (str "foo") (str "foo\nmore")).1,
    (lines_and_patterns_keep_newlines (str "ab\ncd") (str "# ")
      (str "foo") (str "foo\nmore")).2.2.2 (by decide),
    (lines_and_patterns_keep_newlines (str "ab\ncd") (str "# ")
      (str "foo") (str "foo")).2.2.2 (by decide)⟩

/-- C10: the non-emptiness of the check prefix is not enforced: with an
empty prefix every line of the expectations file starts with the prefix and
becomes a pattern unchanged, so the whole file is the pattern sequence. -/
theorem empty_check_marker_keeps_all_lines (s actual expected : PyStr) :
    _expected_lines s [] = _actual_lines s ∧
    compare actual expected [] =
      compareLines (pyLines actual) (pyLines expected) := by
  constructor
  · simp [_expected_lines, _actual_lines, expectedOfLines_nil_prefix]
  · simp [compare, _expected_lines, _actual_lines, expectedOfLines_nil_prefix]

end XCTestChecker
